import Mathlib

/-!
Shallow embedding of the audio playback manager in
src/lib/audio/audioManager.ts (class AudioManager).

The manager is single-threaded, event-driven JavaScript.  We embed it as
explicit state passing over a `World` that carries the manager fields
(the private fields of the class, in declaration order), the audio clock
(audioContext.currentTime), the set of live interval timers, and the
queue of pending source ended events.  Platform outcomes (constructor
availability, resume success, fetch+decode results, source start
success) are parameters in `Env`.  Awaitable platform calls that can
reject are embedded as `Except Unit`; a try/catch in the source is a
`match` on that `Except`, and a fallible call that the source does not
wrap propagates through the `Except` result of the operation, so that
which operations can reject is decided by the embedding of the source,
not assumed.  Console logging is not modelled; log-and-return paths are
embedded as plain returns.

Sound presets: the nine supported presets are named as in
SUPPORTED_SOUND_PRESETS; the sentinel value is `SoundPreset.none`; the
constructor `SoundPreset.other` stands for any further member of the
SoundPreset union that is not in the supported set (play and preload
treat all such values uniformly via SUPPORTED_SOUND_SET.has).
-/

namespace CoffeeTimer

inductive SoundPreset where
  | none
  | brightDing
  | doublePing
  | serviceBell
  | alertBeep
  | ascendingChime
  | notifPop
  | cheerfulChirp
  | urgentAlert
  | melodicBells
  | other (n : Nat)
deriving DecidableEq, Repr

/-- The SUPPORTED_SOUND_PRESETS list from audioManager.ts lines 3-13. -/
def SUPPORTED_SOUND_PRESETS : List SoundPreset :=
  [SoundPreset.brightDing, SoundPreset.doublePing, SoundPreset.serviceBell,
   SoundPreset.alertBeep, SoundPreset.ascendingChime, SoundPreset.notifPop,
   SoundPreset.cheerfulChirp, SoundPreset.urgentAlert, SoundPreset.melodicBells]

/-- SUPPORTED_SOUND_SET.has (audioManager.ts line 15). -/
def supportedHas (p : SoundPreset) : Bool :=
  decide (p ∈ SUPPORTED_SOUND_PRESETS)

/-- AudioContextState as observed by the manager. -/
inductive CtxState where
  | suspended
  | running
  | closed
deriving DecidableEq, Repr

/-- An AudioBufferSourceNode created by play: its identity, whether
start(0) succeeded, and whether its ended event has already fired. -/
structure SourceNode where
  sid : Nat
  started : Bool
  ended : Bool
deriving DecidableEq, Repr

/-- The private fields of class AudioManager (lines 27-36), in order.
audioContext keeps only the state (its currentTime is the world clock);
audioBuffers maps a preset to the decoded buffer duration in seconds;
gainNode holds gain.value; progressCallback holds the identity of the
supplied callback. -/
structure ManagerState where
  audioContext : Option CtxState
  audioBuffers : List (SoundPreset × ℚ)
  currentSource : Option SourceNode
  gainNode : Option ℚ
  progressCallback : Option Nat
  progressInterval : Option Nat
  startTime : ℚ
  duration : ℚ
deriving DecidableEq, Repr

/-- The manager state plus the event-loop context: the audio clock,
the intervals currently registered with setInterval, the ended events
queued for delivery, and fresh-identity counters. -/
structure World where
  st : ManagerState
  clock : ℚ
  liveTimers : List Nat
  pendingEnded : List Nat
  nextSrc : Nat
  nextTimer : Nat
deriving DecidableEq, Repr

/-- Result record of getState (lines 284-294). -/
structure ManagerPublicState where
  initialized : Bool
  state : Option CtxState
  preloadedSounds : List SoundPreset
deriving DecidableEq, Repr

/-- Observable side effects, used to state trace properties. -/
inductive Effect where
  | createContext
  | createGain
  | resumed
  | fetchDecode (p : SoundPreset)
  | fetchFail (p : SoundPreset)
  | cbCall (c : Nat) (percent elapsed duration : ℚ)
  | setGain (g : ℚ)
  | sourceStart (sid : Nat)
  | sourceStop (sid : Nat)
  | setTimer (tid : Nat)
  | clearTimer (tid : Nat)
deriving DecidableEq, Repr

/-- Platform outcomes for one call into the manager. -/
structure Env where
  hasAudioContext : Bool
  newCtxState : CtxState
  resume : Bool
  load : SoundPreset → Except Unit ℚ
  startOk : Bool

/-- JavaScript Map.get on the buffer cache. -/
def mapFind (m : List (SoundPreset × ℚ)) (k : SoundPreset) : Option ℚ :=
  match m with
  | [] => Option.none
  | (k1, v) :: rest => if k1 = k then some v else mapFind rest k

/-- JavaScript Map.set on the buffer cache: replace in place when the
key is present, append otherwise (insertion order preserved). -/
def mapSet (m : List (SoundPreset × ℚ)) (k : SoundPreset) (v : ℚ) :
    List (SoundPreset × ℚ) :=
  match m with
  | [] => [(k, v)]
  | (k1, v1) :: rest =>
    if k1 = k then (k, v) :: rest else (k1, v1) :: mapSet rest k v

/-- this.audioContext && this.audioContext.state !== closed
(initialize, line 46). -/
def ctxAlive (w : World) : Bool :=
  match w.st.audioContext with
  | some CtxState.closed => false
  | some _ => true
  | Option.none => false

/-- The context after a successful resume(). -/
def ctxRunning (w : World) : World :=
  { w with st := { w.st with audioContext := some CtxState.running } }

/-- this.audioContext.resume(): fulfils or rejects per the platform. -/
def resumeCall (env : Env) : Except Unit Unit :=
  if env.resume then Except.ok () else Except.error ()

/-- source.start(0): succeeds or throws per the platform. -/
def startCall (env : Env) : Except Unit Unit :=
  if env.startOk then Except.ok () else Except.error ()

/-- source.stop() inside cleanup: throws InvalidStateError when start
was never called (caught by the source, line 268); when the source was
started and its ended event has not fired yet, stopping queues that
event for its onended handler. -/
def stopSourceCall (s : SourceNode) : Except Unit (Option Nat) :=
  if s.started then
    Except.ok (if s.ended then Option.none else some s.sid)
  else Except.error ()

/-- cleanup (lines 257-278): clear the progress interval, stop and
disconnect the source node (the stop that can throw is caught), null
the callback, zero startTime and duration. -/
def cleanup (w : World) : World × List Effect :=
  let timers : List Nat :=
    match w.st.progressInterval with
    | some tid => w.liveTimers.filter (fun t => t != tid)
    | Option.none => w.liveTimers
  let fxT : List Effect :=
    match w.st.progressInterval with
    | some tid => [Effect.clearTimer tid]
    | Option.none => []
  let fxS : List Effect :=
    match w.st.currentSource with
    | some s =>
      match stopSourceCall s with
      | Except.ok (some sid) => [Effect.sourceStop sid]
      | Except.ok Option.none => []
      | Except.error _ => []
    | Option.none => []
  let pend : List Nat :=
    match w.st.currentSource with
    | some s =>
      match stopSourceCall s with
      | Except.ok (some sid) => w.pendingEnded ++ [sid]
      | Except.ok Option.none => w.pendingEnded
      | Except.error _ => w.pendingEnded
    | Option.none => w.pendingEnded
  ({ w with
      st := { w.st with
        progressInterval := Option.none
        currentSource := Option.none
        progressCallback := Option.none
        startTime := 0
        duration := 0 }
      liveTimers := timers
      pendingEnded := pend },
   fxT ++ fxS)

/-- stop (lines 250-252): delegates to cleanup. -/
def stop (w : World) : World × List Effect :=
  cleanup w

/-- handlePlaybackComplete (lines 240-245): report (100, 0, 0) when a
callback is present, then cleanup. -/
def handlePlaybackComplete (w : World) : World × List Effect :=
  let fx0 : List Effect :=
    match w.st.progressCallback with
    | some c => [Effect.cbCall c 100 0 0]
    | Option.none => []
  let r := cleanup w
  (r.1, fx0 ++ r.2)

/-- The setInterval closure body (lines 201-217): guarded on
audioContext and currentSource; computes elapsed from the audio clock
and startTime; at progress >= 100 treats the playback as complete,
otherwise reports min(progress, 100). -/
def tickBody (w : World) : World × List Effect :=
  match w.st.audioContext, w.st.currentSource with
  | some _, some _ =>
    let elapsed := w.clock - w.st.startTime
    let progress := elapsed / w.st.duration * 100
    if 100 ≤ progress then handlePlaybackComplete w
    else
      match w.st.progressCallback with
      | some c => (w, [Effect.cbCall c (min progress 100) elapsed w.st.duration])
      | Option.none => (w, [])
  | _, _ => (w, [])

/-- initialize (lines 44-74).  The resume() awaits at lines 49 and 68
are not wrapped in try/catch, so a resume rejection propagates to the
caller: that is the Except.error branch (carrying the state at the
point of the throw). -/
def initManager (env : Env) (w : World) : Except World (World × List Effect) :=
  if ctxAlive w then
    if w.st.audioContext = some CtxState.suspended then
      match resumeCall env with
      | Except.ok _ => Except.ok (ctxRunning w, [Effect.resumed])
      | Except.error _ => Except.error w
    else Except.ok (w, [])
  else
    if env.hasAudioContext = false then Except.ok (w, [])
    else
      let w1 : World :=
        { w with st := { w.st with
            audioContext := some env.newCtxState
            gainNode := some 1 } }
      if env.newCtxState = CtxState.suspended then
        match resumeCall env with
        | Except.ok _ =>
          Except.ok (ctxRunning w1,
            [Effect.createContext, Effect.createGain, Effect.resumed])
        | Except.error _ => Except.error w1
      else
        Except.ok (w1, [Effect.createContext, Effect.createGain])

/-- preload (lines 82-115): sentinel and unsupported presets are
no-ops, a cached preset returns immediately, a missing context warns
and returns, and the fetch/decode is wrapped in try/catch (a failure is
logged and the preset stays uncached). -/
def preload (env : Env) (w : World) (preset : SoundPreset) :
    Except World (World × List Effect) :=
  if preset = SoundPreset.none then Except.ok (w, [])
  else if supportedHas preset = false then Except.ok (w, [])
  else if (mapFind w.st.audioBuffers preset).isSome then Except.ok (w, [])
  else if w.st.audioContext = Option.none then Except.ok (w, [])
  else
    match env.load preset with
    | Except.ok d =>
      Except.ok
        ({ w with st := { w.st with
            audioBuffers := mapSet w.st.audioBuffers preset d } },
         [Effect.fetchDecode preset])
    | Except.error _ => Except.ok (w, [Effect.fetchFail preset])

/-- play, lines 184-235: source creation through start(0).  Reads the
progressCallback field (not the local argument) exactly as lines 196,
198 and 210 do; the start failure is caught and runs cleanup. -/
def playStartSession (env : Env) (w : World) (d : ℚ) (volume : ℚ) :
    World × List Effect :=
  let sid := w.nextSrc
  let w1 : World :=
    { w with
        st := { w.st with currentSource := some ⟨sid, false, false⟩ }
        nextSrc := w.nextSrc + 1 }
  let w2 : World :=
    { w1 with st := { w1.st with gainNode := some (volume / 100) } }
  let w3 : World :=
    { w2 with st := { w2.st with startTime := w.clock, duration := d } }
  let r4 : World × List Effect :=
    match w3.st.progressCallback with
    | some c =>
      let tid := w3.nextTimer
      ({ w3 with
          st := { w3.st with progressInterval := some tid }
          liveTimers := w3.liveTimers ++ [tid]
          nextTimer := w3.nextTimer + 1 },
       [Effect.cbCall c 0 0 d, Effect.setTimer tid])
    | Option.none => (w3, [])
  match startCall env with
  | Except.ok _ =>
    ({ r4.1 with st := { r4.1.st with currentSource := some ⟨sid, true, false⟩ } },
     Effect.setGain (volume / 100) :: r4.2 ++ [Effect.sourceStart sid])
  | Except.error _ =>
    let r5 := cleanup r4.1
    (r5.1, Effect.setGain (volume / 100) :: r4.2 ++ r5.2)

/-- play, lines 175-235: the continuation after the awaited preload
resolves: re-read the cache, abort when the buffer is still missing,
otherwise start the session. -/
def playAfterLoad (env : Env) (w : World) (preset : SoundPreset)
    (volume : ℚ) : World × List Effect :=
  match mapFind w.st.audioBuffers preset with
  | some d => playStartSession env w d volume
  | Option.none => (w, [])

/-- play, lines 164-235: stop the current session, store the callback,
take the cached buffer or load it, then start the session. -/
def playAfterResume (env : Env) (w : World) (preset : SoundPreset)
    (volume : ℚ) (onProgress : Option Nat) :
    Except World (World × List Effect) :=
  let r1 := stop w
  let w2 : World :=
    { r1.1 with st := { r1.1.st with progressCallback := onProgress } }
  match mapFind w2.st.audioBuffers preset with
  | some d =>
    let r := playStartSession env w2 d volume
    Except.ok (r.1, r1.2 ++ r.2)
  | Option.none =>
    match preload env w2 preset with
    | Except.ok (w3, fx3) =>
      let r := playAfterLoad env w3 preset volume
      Except.ok (r.1, r1.2 ++ fx3 ++ r.2)
    | Except.error w3 => Except.error w3

/-- play (lines 124-235): sentinel and unsupported presets return
before anything else, a missing context or gain node warns and returns,
a suspended context is resumed inside try/catch (a failure is logged
and the call aborts), then the body runs. -/
def play (env : Env) (w : World) (preset : SoundPreset) (volume : ℚ)
    (onProgress : Option Nat) : Except World (World × List Effect) :=
  if preset = SoundPreset.none then Except.ok (w, [])
  else if supportedHas preset = false then Except.ok (w, [])
  else
    match w.st.audioContext, w.st.gainNode with
    | some cs, some _ =>
      if cs = CtxState.suspended then
        match resumeCall env with
        | Except.ok _ => playAfterResume env (ctxRunning w) preset volume onProgress
        | Except.error _ => Except.ok (w, [])
      else playAfterResume env w preset volume onProgress
    | _, _ => Except.ok (w, [])

/-- getState (lines 284-294). -/
def getState (w : World) : ManagerPublicState :=
  { initialized := w.st.audioContext.isSome
    state := w.st.audioContext
    preloadedSounds := w.st.audioBuffers.map Prod.fst }

/-- Event-loop steps that can run between manager calls: an interval
firing, the audio clock advancing, a queued ended event being
delivered to its onended handler, and the current source reaching its
natural end. -/
inductive SchedStep where
  | tick
  | advance (dt : ℚ)
  | deliverEnded
  | naturalEnd
deriving DecidableEq, Repr

/-- One event-loop step.  All interval closures registered by play are
the same closure reading the current fields, so a tick fires whenever
some live interval exists.  A natural end marks the source ended and
runs its onended handler, this.handlePlaybackComplete (line 221). -/
def schedStep (w : World) : SchedStep → World × List Effect
  | SchedStep.tick => if w.liveTimers.isEmpty then (w, []) else tickBody w
  | SchedStep.advance dt => ({ w with clock := w.clock + dt }, [])
  | SchedStep.deliverEnded =>
    match w.pendingEnded with
    | [] => (w, [])
    | _ :: rest => handlePlaybackComplete { w with pendingEnded := rest }
  | SchedStep.naturalEnd =>
    match w.st.currentSource with
    | some s =>
      if s.started && !s.ended then
        handlePlaybackComplete
          { w with st := { w.st with currentSource := some ⟨s.sid, s.started, true⟩ } }
      else (w, [])
    | Option.none => (w, [])

/-- Run a list of event-loop steps, collecting effects. -/
def schedRun (w : World) : List SchedStep → World × List Effect
  | [] => (w, [])
  | s :: ss =>
    let r1 := schedStep w s
    let r2 := schedRun r1.1 ss
    (r2.1, r1.2 ++ r2.2)

/-- Well-spaced schedules: the audio clock strictly advances before
each interval firing (the flag records whether an advance happened
since the last tick). -/
def wsp (b : Bool) : List SchedStep → Bool
  | [] => true
  | SchedStep.tick :: ss => b && wsp false ss
  | SchedStep.advance dt :: ss => decide (0 < dt) && wsp true ss
  | SchedStep.deliverEnded :: ss => wsp b ss
  | SchedStep.naturalEnd :: ss => wsp b ss

/-- The progress-callback invocations of an effect trace. -/
def cbOf : List Effect → List (Nat × ℚ × ℚ × ℚ)
  | [] => []
  | Effect.cbCall c p e d :: rest => (c, p, e, d) :: cbOf rest
  | _ :: rest => cbOf rest

/-- Shape of the callback trace after the initial report: percents
strictly increase inside (lo, 100) until an optional final (100, 0, 0),
after which nothing follows. -/
def goodTail (c : Nat) : ℚ → List (Nat × ℚ × ℚ × ℚ) → Bool
  | _, [] => true
  | lo, (c1, p, e, d) :: rest =>
    decide (c1 = c) &&
      (if p = 100 then decide (e = 0) && decide (d = 0) && rest.isEmpty
       else decide (lo < p) && decide (p < 100) && goodTail c p rest)

/-- Number of completion reports (100, 0, 0) for callback c. -/
def countCompl (c : Nat) (l : List (Nat × ℚ × ℚ × ℚ)) : Nat :=
  l.countP (fun x => decide (x = (c, 100, 0, 0)))

/-- A play call followed by event-loop steps. -/
def playThenSched (env : Env) (w : World) (preset : SoundPreset)
    (volume : ℚ) (onProgress : Option Nat) (ss : List SchedStep) :
    Option (World × List Effect) :=
  match play env w preset volume onProgress with
  | Except.ok (w1, fx1) =>
    let r := schedRun w1 ss
    some (r.1, fx1 ++ r.2)
  | Except.error _ => Option.none

/-- A call into the manager or an event-loop step. -/
inductive Op where
  | opInit
  | opPreload (p : SoundPreset)
  | opPlay (p : SoundPreset) (v : ℚ) (cb : Option Nat)
  | opStop
  | opSched (s : SchedStep)

/-- Run one operation; an exception escaping the manager leaves the
state it threw at (the caller may catch it). -/
def runOp (e : Env) (w : World) : Op → World × List Effect
  | Op.opInit =>
    match initManager e w with
    | Except.ok r => r
    | Except.error w1 => (w1, [])
  | Op.opPreload p =>
    match preload e w p with
    | Except.ok r => r
    | Except.error w1 => (w1, [])
  | Op.opPlay p v cb =>
    match play e w p v cb with
    | Except.ok r => r
    | Except.error w1 => (w1, [])
  | Op.opStop => stop w
  | Op.opSched s => schedStep w s

/-- Run a sequence of operations, each with its own platform
outcomes. -/
def runOps (w : World) : List (Env × Op) → World × List Effect
  | [] => (w, [])
  | (e, op) :: rest =>
    let r1 := runOp e w op
    let r2 := runOps r1.1 rest
    (r2.1, r1.2 ++ r2.2)

/-- Whether a buffer for the preset is cached. -/
def cachedB (w : World) (p : SoundPreset) : Bool :=
  (mapFind w.st.audioBuffers p).isSome

/-- The interleaving in which a second play call runs while the first
play call is awaiting its buffer load (play line 174).  Event-loop
order: the first call runs its synchronous prefix (stop, store its
callback, cache miss, preload prechecks) and suspends at the fetch;
the second call then runs to completion; the first call's fetch then
resolves, its preload continuation caches the buffer (line 107), and
the rest of the first play call (lines 175-235) runs on the resulting
state. -/
def rapidSecondPlay (env1 env2 : Env) (w : World) (p1 p2 : SoundPreset)
    (v1 v2 : ℚ) (cb1 cb2 : Option Nat) : Except World (World × List Effect) :=
  let r1 := stop w
  let w2 : World :=
    { r1.1 with st := { r1.1.st with progressCallback := cb1 } }
  match play env2 w2 p2 v2 cb2 with
  | Except.ok (wA, fxA) =>
    match env1.load p1 with
    | Except.ok d =>
      let wB : World :=
        { wA with st := { wA.st with
            audioBuffers := mapSet wA.st.audioBuffers p1 d } }
      let r := playAfterLoad env1 wB p1 v1
      Except.ok (r.1, r1.2 ++ fxA ++ [Effect.fetchDecode p1] ++ r.2)
    | Except.error _ =>
      let r := playAfterLoad env1 wA p1 v1
      Except.ok (r.1, r1.2 ++ fxA ++ [Effect.fetchFail p1] ++ r.2)
  | Except.error wA => Except.error wA

/-- N successive initialize calls (an escaping exception leaves the
state as thrown and the next call proceeds from it). -/
def initN (e : Env) (w : World) : Nat → World × List Effect
  | 0 => (w, [])
  | Nat.succ k =>
    let r1 : World × List Effect :=
      match initManager e w with
      | Except.ok r => r
      | Except.error w1 => (w1, [])
    let r2 := initN e r1.1 k
    (r2.1, r1.2 ++ r2.2)

end CoffeeTimer

namespace CoffeeTimer

/-- Effects a preload call may emit: only load outcomes. -/
def isLoadFx : Effect → Bool
  | Effect.fetchDecode _ => true
  | Effect.fetchFail _ => true
  | _ => false

theorem cleanup_st_frame (w : World) :
    (cleanup w).1.st.audioContext = w.st.audioContext ∧
    (cleanup w).1.st.audioBuffers = w.st.audioBuffers ∧
    (cleanup w).1.st.gainNode = w.st.gainNode ∧
    (cleanup w).1.st.currentSource = Option.none ∧
    (cleanup w).1.st.progressCallback = Option.none ∧
    (cleanup w).1.st.progressInterval = Option.none ∧
    (cleanup w).1.st.startTime = 0 ∧
    (cleanup w).1.st.duration = 0 ∧
    (cleanup w).1.clock = w.clock ∧
    (cleanup w).1.nextSrc = w.nextSrc ∧
    (cleanup w).1.nextTimer = w.nextTimer := by
  simp [cleanup]

theorem cleanup_no_cb (w : World) : cbOf (cleanup w).2 = [] := by
  unfold cleanup
  rcases w.st.progressInterval with _ | tid <;>
    rcases hs : w.st.currentSource with _ | s <;>
      simp [hs, cbOf, stopSourceCall] <;>
        rcases s with ⟨sid, st, en⟩ <;> rcases st <;> rcases en <;> simp [cbOf]

end CoffeeTimer

namespace CoffeeTimer

/-- An initialized, idle manager with one cached preset (doublePing,
duration 2s): running context, default gain, empty session state. -/
def exIdleW : World :=
  { st := { audioContext := some CtxState.running
            audioBuffers := [(SoundPreset.doublePing, 2)]
            currentSource := Option.none
            gainNode := some 1
            progressCallback := Option.none
            progressInterval := Option.none
            startTime := 0
            duration := 0 }
    clock := 0
    liveTimers := []
    pendingEnded := []
    nextSrc := 0
    nextTimer := 0 }

/-- Platform outcomes where everything succeeds and brightDing decodes
to a 3-second buffer. -/
def exEnv : Env :=
  { hasAudioContext := true
    newCtxState := CtxState.suspended
    resume := true
    load := fun p => if p = SoundPreset.brightDing then Except.ok 3 else Except.error ()
    startOk := true }

/-- A manager whose context was suspended by the platform while a
session (source 5, callback 7, interval 3) is active. -/
def exSuspActiveW : World :=
  { st := { audioContext := some CtxState.suspended
            audioBuffers := [(SoundPreset.brightDing, 2)]
            currentSource := some ⟨5, true, false⟩
            gainNode := some 1
            progressCallback := some 7
            progressInterval := some 3
            startTime := 1
            duration := 2 }
    clock := 2
    liveTimers := [3]
    pendingEnded := []
    nextSrc := 6
    nextTimer := 4 }

/-- Platform outcomes where resume() rejects (autoplay policy). -/
def exEnvNoResume : Env :=
  { hasAudioContext := true
    newCtxState := CtxState.suspended
    resume := false
    load := fun _ => Except.error ()
    startOk := true }

theorem preload_ok (e : Env) (w : World) (p : SoundPreset) :
    ∃ r, preload e w p = Except.ok r := by
  unfold preload
  split_ifs <;> try exact ⟨_, rfl⟩
  cases hl : e.load p <;> simp [hl]

theorem playAfterResume_ok (e : Env) (w : World) (p : SoundPreset) (v : ℚ)
    (cb : Option Nat) : ∃ r, playAfterResume e w p v cb = Except.ok r := by
  simp only [playAfterResume]
  split
  · exact ⟨_, rfl⟩
  · rcases preload_ok e _ p with ⟨⟨w3, fx3⟩, hr⟩
    rw [hr]
    exact ⟨_, rfl⟩

theorem play_ok (e : Env) (w : World) (p : SoundPreset) (v : ℚ)
    (cb : Option Nat) : ∃ r, play e w p v cb = Except.ok r := by
  simp only [play]
  split
  · exact ⟨_, rfl⟩
  split
  · exact ⟨_, rfl⟩
  split
  · split
    · split
      · exact playAfterResume_ok e _ p v cb
      · exact ⟨_, rfl⟩
    · exact playAfterResume_ok e _ p v cb
  · exact ⟨_, rfl⟩

end CoffeeTimer

namespace CoffeeTimer

theorem playStartSession_gain (e : Env) (w : World) (d v : ℚ) :
    (playStartSession e w d v).1.st.gainNode = some (v / 100) ∧
    Effect.setGain (v / 100) ∈ (playStartSession e w d v).2 := by
  simp only [playStartSession]
  cases hcb : w.st.progressCallback <;> cases hok : startCall e <;>
    simp [hcb, hok, cleanup]

/-- C3 (corrected): preload and play never reject for any manager state
and any platform outcomes (fetch, decode, resume and start failures are
all caught), and initialize never rejects when resume succeeds; but an
initialize call that resumes a suspended context can reject, because
the resume awaits at lines 49 and 68 are not wrapped in try/catch — an
initialize rejection implies the platform resume rejected.  stop and
getState are embedded as total functions since their only fallible
platform call (source.stop, line 267) is wrapped in try/catch. -/
theorem C3_amended_never_throws :
    (∀ e w p, ∃ r, preload e w p = Except.ok r) ∧
    (∀ e w p v cb, ∃ r, play e w p v cb = Except.ok r) ∧
    (∀ e w, e.resume = true → ∃ r, initManager e w = Except.ok r) ∧
    (∀ e w w1, initManager e w = Except.error w1 → e.resume = false) := by
  refine ⟨preload_ok, play_ok, ?_, ?_⟩
  · intro e w he
    unfold initManager
    split_ifs <;> simp [resumeCall, he]
  · intro e w w1 herr
    by_contra hr
    have he : e.resume = true := by
      cases h : e.resume
      · exact absurd h hr
      · rfl
    unfold initManager at herr
    split_ifs at herr <;> simp [resumeCall, he] at herr

/-- C3 witness: concrete inputs for the three hypothesis-bearing
conjuncts of the amended claim. -/
theorem C3_amended_never_throws_witness :
    (∃ r, preload exEnv exIdleW SoundPreset.brightDing = Except.ok r) ∧
    (∃ r, play exEnv exIdleW SoundPreset.doublePing 70 (some 4) = Except.ok r) ∧
    (∃ r, initManager exEnv exSuspActiveW = Except.ok r) :=
  ⟨C3_amended_never_throws.1 exEnv exIdleW SoundPreset.brightDing,
   C3_amended_never_throws.2.1 exEnv exIdleW SoundPreset.doublePing 70 (some 4),
   C3_amended_never_throws.2.2.1 exEnv exSuspActiveW rfl⟩

/-- C3 counterexample: with a suspended context and a platform whose
resume() rejects, initialize rejects to its caller — the claim that no
public operation ever throws, including on context-resume rejection,
fails on initialize. -/
theorem C3_counterexample :
    initManager exEnvNoResume exSuspActiveW = Except.error exSuspActiveW := rfl

/-- C10: preload modifies only the buffer cache: for every manager
state (including one with an active session) and every identifier, the
context, gain node and level, current source, progress callback and
interval, live timers, pending events, session times and clock are all
unchanged, and the only effects preload can emit are load outcomes (no
callback invocation, no gain or source or timer operation). -/
theorem C10_preload_frame (e : Env) (w : World) (p : SoundPreset) :
    ∃ w1 fx, preload e w p = Except.ok (w1, fx) ∧
      w1.st.audioContext = w.st.audioContext ∧
      w1.st.currentSource = w.st.currentSource ∧
      w1.st.gainNode = w.st.gainNode ∧
      w1.st.progressCallback = w.st.progressCallback ∧
      w1.st.progressInterval = w.st.progressInterval ∧
      w1.st.startTime = w.st.startTime ∧
      w1.st.duration = w.st.duration ∧
      w1.clock = w.clock ∧
      w1.liveTimers = w.liveTimers ∧
      w1.pendingEnded = w.pendingEnded ∧
      fx.all isLoadFx = true := by
  unfold preload
  split_ifs <;>
    try exact ⟨w, [], rfl, rfl, rfl, rfl, rfl, rfl, rfl, rfl, rfl, rfl, rfl, rfl⟩
  cases hl : e.load p
  · exact ⟨_, _, rfl, rfl, rfl, rfl, rfl, rfl, rfl, rfl, rfl, rfl, rfl, rfl⟩
  · exact ⟨_, _, rfl, rfl, rfl, rfl, rfl, rfl, rfl, rfl, rfl, rfl, rfl, rfl⟩

/-- C9: play with the sentinel none identifier, or with any identifier
outside the supported set, returns before any state mutation: the
whole world (cache, gain, context, session, timers) is exactly
unchanged and no effect is emitted, so an active session keeps playing
and its callbacks keep firing — the early returns precede the
stop-current-session step. -/
theorem C9_sentinel_unsupported_noop (e : Env) (w : World) (v : ℚ)
    (cb : Option Nat) :
    play e w SoundPreset.none v cb = Except.ok (w, []) ∧
    ∀ n : Nat, supportedHas (SoundPreset.other n) = false ∧
      play e w (SoundPreset.other n) v cb = Except.ok (w, []) := by
  refine ⟨rfl, fun n => ⟨?_, ?_⟩⟩
  · simp [supportedHas, SUPPORTED_SOUND_PRESETS]
  · simp [play, supportedHas, SUPPORTED_SOUND_PRESETS]

end CoffeeTimer

namespace CoffeeTimer

/-- C7: for every play call that starts a session, the gain level is
set to exactly volume / 100; the theorem is stated for an arbitrary
rational volume, so values outside 0-100 get the same linear mapping
with no validation or clamping anywhere in the call. -/
theorem C7_volume_mapping (e : Env) (w : World) (p : SoundPreset) (v : ℚ)
    (cb : Option Nat) (d g0 : ℚ)
    (hp0 : p ≠ SoundPreset.none) (hp : supportedHas p = true)
    (hctx : w.st.audioContext = some CtxState.running)
    (hg : w.st.gainNode = some g0)
    (hbuf : mapFind w.st.audioBuffers p = some d) :
    ∃ w1 fx, play e w p v cb = Except.ok (w1, fx) ∧
      w1.st.gainNode = some (v / 100) ∧ Effect.setGain (v / 100) ∈ fx := by
  have hb2 : mapFind (cleanup w).1.st.audioBuffers p = some d := by
    rw [(cleanup_st_frame w).2.1]
    exact hbuf
  simp only [play, playAfterResume, stop, hp0, hp, hctx, hg, hb2,
    Bool.true_eq_false, if_false, reduceCtorEq, ite_false, if_neg,
    not_false_eq_true]
  exact ⟨_, _, rfl, (playStartSession_gain e _ d v).1,
    List.mem_append.mpr (Or.inr (playStartSession_gain e _ d v).2)⟩

/-- C7 witness: volumes 0, 50 and 100 map to gains 0, 1/2 and 1. -/
theorem C7_volume_mapping_witness :
    (∃ w1 fx, play exEnv exIdleW SoundPreset.doublePing 0 Option.none =
        Except.ok (w1, fx) ∧ w1.st.gainNode = some ((0 : ℚ) / 100) ∧
        Effect.setGain ((0 : ℚ) / 100) ∈ fx) ∧
    (∃ w1 fx, play exEnv exIdleW SoundPreset.doublePing 50 Option.none =
        Except.ok (w1, fx) ∧ w1.st.gainNode = some ((50 : ℚ) / 100) ∧
        Effect.setGain ((50 : ℚ) / 100) ∈ fx) ∧
    (∃ w1 fx, play exEnv exIdleW SoundPreset.doublePing 100 Option.none =
        Except.ok (w1, fx) ∧ w1.st.gainNode = some ((100 : ℚ) / 100) ∧
        Effect.setGain ((100 : ℚ) / 100) ∈ fx) :=
  ⟨C7_volume_mapping exEnv exIdleW SoundPreset.doublePing 0 Option.none 2 1
      (by decide) (by decide) rfl rfl rfl,
   C7_volume_mapping exEnv exIdleW SoundPreset.doublePing 50 Option.none 2 1
      (by decide) (by decide) rfl rfl rfl,
   C7_volume_mapping exEnv exIdleW SoundPreset.doublePing 100 Option.none 2 1
      (by decide) (by decide) rfl rfl rfl⟩

/-- C5 (corrected): when play is invoked with the context suspended,
a resume is attempted; if the resume fails the call aborts with the
whole world unchanged — no session is created and no callback is
stored or invoked — but the prior session (if any) is NOT torn down,
because the resume attempt (lines 155-162) precedes the
stop-current-session step (line 165), contrary to the claim; if the
resume succeeds, the call proceeds on the resumed context, so the
resume attempt does come before any session creation. -/
theorem C5_resume_failure_aborts (e : Env) (w : World) (p : SoundPreset)
    (v : ℚ) (cb : Option Nat) (g0 : ℚ)
    (hp0 : p ≠ SoundPreset.none) (hp : supportedHas p = true)
    (hctx : w.st.audioContext = some CtxState.suspended)
    (hg : w.st.gainNode = some g0) :
    (e.resume = false → play e w p v cb = Except.ok (w, [])) ∧
    (e.resume = true → play e w p v cb = playAfterResume e (ctxRunning w) p v cb) := by
  constructor <;> intro he <;>
    simp [play, hp0, hp, hctx, hg, resumeCall, he]

/-- C5 witness for the amended claim, on a world with an active
session: the aborted call leaves that session's source, interval and
callback in place. -/
theorem C5_resume_failure_aborts_witness :
    play exEnvNoResume exSuspActiveW SoundPreset.brightDing 50 (some 9) =
      Except.ok (exSuspActiveW, []) :=
  (C5_resume_failure_aborts exEnvNoResume exSuspActiveW SoundPreset.brightDing
    50 (some 9) 1 (by decide) (by decide) rfl rfl).1 rfl

/-- C5 counterexample: context suspended by the platform while source
5 plays (interval 3, callback 7); play with a rejecting resume returns
with the prior session fully intact — it has not been torn down, so
the claim that the prior session has already been torn down by the
play call when resume fails is false. -/
theorem C5_counterexample :
    play exEnvNoResume exSuspActiveW SoundPreset.brightDing 50 (some 9) =
      Except.ok (exSuspActiveW, []) ∧
    exSuspActiveW.st.currentSource = some ⟨5, true, false⟩ ∧
    exSuspActiveW.st.progressInterval = some 3 ∧
    exSuspActiveW.st.progressCallback = some 7 ∧
    exSuspActiveW.liveTimers = [3] := ⟨rfl, rfl, rfl, rfl, rfl⟩

end CoffeeTimer

namespace CoffeeTimer

/-- Single-session timer well-formedness: the live intervals are
exactly the one registered in progressInterval (true of every state
the manager reaches through non-overlapping calls). -/
def TimersWF (w : World) : Prop :=
  w.liveTimers = w.st.progressInterval.toList

/-- No active session: all session fields are clear. -/
def Inactive (w : World) : Prop :=
  w.st.currentSource = Option.none ∧ w.st.progressInterval = Option.none ∧
  w.st.progressCallback = Option.none ∧ w.st.startTime = 0 ∧ w.st.duration = 0

/-- A torn-down session: no source, no callback, no interval, no live
timer; event-loop steps from such a state can never invoke a
callback. -/
def DeadW (w : World) : Prop :=
  w.st.currentSource = Option.none ∧ w.st.progressCallback = Option.none ∧
  w.st.progressInterval = Option.none ∧ w.liveTimers = []

theorem cbOf_append (a b : List Effect) :
    cbOf (a ++ b) = cbOf a ++ cbOf b := by
  induction a with
  | nil => rfl
  | cons x xs ih => cases x <;> simp [cbOf, ih]

theorem deadRun (ss : List SchedStep) :
    ∀ w, DeadW w → cbOf (schedRun w ss).2 = [] ∧ DeadW (schedRun w ss).1 := by
  induction ss with
  | nil => exact fun w hw => ⟨rfl, hw⟩
  | cons s ss ih =>
    intro w hw
    obtain ⟨h1, h2, h3, h4⟩ := hw
    have hstep : cbOf (schedStep w s).2 = [] ∧ DeadW (schedStep w s).1 := by
      cases s with
      | tick => simp [schedStep, h4, cbOf, DeadW, h1, h2, h3]
      | advance dt => simp [schedStep, cbOf, DeadW, h1, h2, h3, h4]
      | deliverEnded =>
        cases hp : w.pendingEnded with
        | nil => simp [schedStep, hp, cbOf, DeadW, h1, h2, h3, h4]
        | cons a rest =>
          simp [schedStep, hp, handlePlaybackComplete, cleanup, h1, h2,
            h3, h4, cbOf, DeadW]
      | naturalEnd => simp [schedStep, h1, cbOf, DeadW, h2, h3, h4]
    have hrec := ih (schedStep w s).1 hstep.2
    refine ⟨?_, ?_⟩
    · simp [schedRun, cbOf_append, hstep.1, hrec.1]
    · simpa [schedRun] using hrec.2

/-- C4: stop before natural completion cancels the progress timer,
detaches the node, clears callback and session references, leaves the
context, cache and gain in place, and emits no callback invocation at
all (in particular never one with percent 100); every event-loop step
after the stop (remaining interval firings, pending or natural ended
events) also emits no callback invocation; and on a state with no
active session, stop is a pure no-op. -/
theorem C4_stop_contract (w : World) :
    (TimersWF w →
      ((stop w).1.st.progressInterval = Option.none ∧
       (stop w).1.st.currentSource = Option.none ∧
       (stop w).1.st.progressCallback = Option.none ∧
       (stop w).1.st.startTime = 0 ∧
       (stop w).1.st.duration = 0 ∧
       (stop w).1.liveTimers = [] ∧
       (stop w).1.st.audioContext = w.st.audioContext ∧
       (stop w).1.st.audioBuffers = w.st.audioBuffers ∧
       (stop w).1.st.gainNode = w.st.gainNode ∧
       cbOf (stop w).2 = [] ∧
       (∀ ss, cbOf (schedRun (stop w).1 ss).2 = []))) ∧
    (Inactive w → stop w = (w, [])) := by
  constructor
  · intro hT
    have hlt : (stop w).1.liveTimers = [] := by
      unfold TimersWF at hT
      cases hI : w.st.progressInterval with
      | none => simp [stop, cleanup, hI, hT, hI ▸ hT]
      | some tid => simp [stop, cleanup, hI, hI ▸ hT]
    refine ⟨rfl, rfl, rfl, rfl, rfl, hlt, (cleanup_st_frame w).1,
      (cleanup_st_frame w).2.1, (cleanup_st_frame w).2.2.1,
      cleanup_no_cb w, ?_⟩
    intro ss
    exact (deadRun ss (stop w).1 ⟨rfl, rfl, rfl, hlt⟩).1
  · rintro ⟨i1, i2, i3, i4, i5⟩
    rcases w with ⟨⟨a, b, c, g, pc, pi, s0, d0⟩, ck, lt, pe, ns, nt⟩
    simp only at i1 i2 i3 i4 i5
    subst i1 i2 i3 i4 i5
    simp [stop, cleanup]

/-- C4 witness: stopping the active session of exSuspActiveW clears
everything and no later event-loop step fires its callback; stopping
the idle exIdleW is a no-op. -/
theorem C4_stop_contract_witness :
    (stop exSuspActiveW).1.liveTimers = [] ∧
    cbOf (stop exSuspActiveW).2 = [] ∧
    cbOf (schedRun (stop exSuspActiveW).1
      [SchedStep.advance 1, SchedStep.tick, SchedStep.deliverEnded,
       SchedStep.naturalEnd]).2 = [] ∧
    stop exIdleW = (exIdleW, []) :=
  ⟨((C4_stop_contract exSuspActiveW).1 rfl).2.2.2.2.2.1,
   ((C4_stop_contract exSuspActiveW).1 rfl).2.2.2.2.2.2.2.2.2.1,
   ((C4_stop_contract exSuspActiveW).1 rfl).2.2.2.2.2.2.2.2.2.2 _,
   (C4_stop_contract exIdleW).2 (by exact ⟨rfl, rfl, rfl, rfl, rfl⟩)⟩

theorem initN_running (e : Env) (k : Nat) :
    ∀ w, w.st.audioContext = some CtxState.running → initN e w k = (w, []) := by
  induction k with
  | zero => intro w _; rfl
  | succ k ih =>
    intro w hw
    have h1 : initManager e w = Except.ok (w, []) := by
      have hca : ctxAlive w = true := by simp [ctxAlive, hw]
      unfold initManager
      rw [if_pos hca, if_neg (by simp [hw])]
    simp [initN, h1, ih w hw]

theorem initManager_create (e : Env) (w : World)
    (h0 : w.st.audioContext = Option.none) (hc : e.hasAudioContext = true)
    (hs : e.newCtxState = CtxState.running ∨
          (e.newCtxState = CtxState.suspended ∧ e.resume = true)) :
    ∃ w1 fx, initManager e w = Except.ok (w1, fx) ∧
      w1.st.audioContext = some CtxState.running ∧
      fx.count Effect.createContext = 1 ∧
      fx.count Effect.createGain = 1 := by
  have hca : ctxAlive w = false := by simp [ctxAlive, h0]
  unfold initManager
  rw [hca]
  simp only [hc, Bool.false_eq_true, if_false, Bool.true_eq_false]
  rcases hs with hrun | ⟨hsus, hres⟩
  · rw [if_neg (by simp [hrun])]
    exact ⟨_, _, rfl, by simp [hrun], by decide, by decide⟩
  · rw [if_pos hsus]
    simp only [resumeCall, hres, if_true]
    exact ⟨_, _, rfl, rfl, by decide, by decide⟩

/-- C8: from an uninitialized manager with audio capability present
and a successful first call (the fresh context is running, or is
suspended and resume succeeds), N successive initialize calls create
exactly one context and exactly one gain node, and getState reports a
running context after the first call and stably after every repeat
(the later calls return immediately without effects). -/
theorem C8_initialize_idempotent (e : Env) (w : World) (n : Nat)
    (h0 : w.st.audioContext = Option.none)
    (hc : e.hasAudioContext = true)
    (hs : e.newCtxState = CtxState.running ∨
          (e.newCtxState = CtxState.suspended ∧ e.resume = true))
    (hn : 1 ≤ n) :
    (initN e w n).2.count Effect.createContext = 1 ∧
    (initN e w n).2.count Effect.createGain = 1 ∧
    (getState (initN e w n).1).state = some CtxState.running ∧
    (getState (initN e w n).1).initialized = true := by
  obtain ⟨k, rfl⟩ : ∃ k, n = k + 1 :=
    ⟨n - 1, (Nat.succ_pred_eq_of_pos hn).symm⟩
  obtain ⟨w1, fx, h1, hrun, hcc, hcg⟩ := initManager_create e w h0 hc hs
  have hrest := initN_running e k w1 hrun
  simp [initN, h1, hrest, hcc, hcg, getState, hrun]

/-- C8 witness: three initialize calls on a fresh manager. -/
theorem C8_initialize_idempotent_witness :
    ((initN exEnv
        { st := { audioContext := Option.none, audioBuffers := [],
                  currentSource := Option.none, gainNode := Option.none,
                  progressCallback := Option.none,
                  progressInterval := Option.none,
                  startTime := 0, duration := 0 },
          clock := 0, liveTimers := [], pendingEnded := [],
          nextSrc := 0, nextTimer := 0 } 3).2.count Effect.createContext = 1) ∧
    (getState (initN exEnv
        { st := { audioContext := Option.none, audioBuffers := [],
                  currentSource := Option.none, gainNode := Option.none,
                  progressCallback := Option.none,
                  progressInterval := Option.none,
                  startTime := 0, duration := 0 },
          clock := 0, liveTimers := [], pendingEnded := [],
          nextSrc := 0, nextTimer := 0 } 3).1).state = some CtxState.running :=
  ⟨(C8_initialize_idempotent exEnv _ 3 rfl rfl (Or.inr ⟨rfl, rfl⟩)
      (by decide)).1,
   (C8_initialize_idempotent exEnv _ 3 rfl rfl (Or.inr ⟨rfl, rfl⟩)
      (by decide)).2.2.1⟩

end CoffeeTimer

namespace CoffeeTimer

theorem mapFind_mapSet (m : List (SoundPreset × ℚ)) (k j : SoundPreset) (v : ℚ) :
    mapFind (mapSet m k v) j = if k = j then some v else mapFind m j := by
  induction m with
  | nil => simp [mapSet, mapFind]
  | cons kv rest ih =>
    rcases kv with ⟨k1, v1⟩
    by_cases h1 : k1 = k
    · subst h1
      by_cases h2 : k1 = j <;> simp [mapSet, mapFind, h2]
    · by_cases h2 : k1 = j
      · subst h2
        have : ¬k = k1 := fun h => h1 h.symm
        simp [mapSet, mapFind, h1, this]
      · simp [mapSet, mapFind, h1, h2, ih]

theorem mapFind_none_not_mem (m : List (SoundPreset × ℚ)) (k : SoundPreset) :
    mapFind m k = Option.none ↔ k ∉ m.map Prod.fst := by
  induction m with
  | nil => simp [mapFind]
  | cons kv rest ih =>
    rcases kv with ⟨k1, v1⟩
    by_cases h1 : k1 = k
    · subst h1
      simp [mapFind]
    · have h1s : k ≠ k1 := fun h => h1 h.symm
      simp [mapFind, h1, ih, h1s]

theorem mapSet_keys_not_mem (m : List (SoundPreset × ℚ)) (k : SoundPreset)
    (v : ℚ) (h : mapFind m k = Option.none) :
    (mapSet m k v).map Prod.fst = m.map Prod.fst ++ [k] := by
  induction m with
  | nil => simp [mapSet]
  | cons kv rest ih =>
    rcases kv with ⟨k1, v1⟩
    by_cases h1 : k1 = k
    · subst h1; simp [mapFind] at h
    · simp [mapFind, h1] at h
      simp [mapSet, h1, ih h]

/-- A manager step that neither touches the buffer cache nor emits a
successful fetch+decode effect. -/
def NoFetchStep (w w1 : World) (fx : List Effect) : Prop :=
  w1.st.audioBuffers = w.st.audioBuffers ∧
  ∀ q, fx.count (Effect.fetchDecode q) = 0

/-- A manager step either leaves the cache alone with no decode, or
caches exactly one previously-uncached preset with exactly one
successful fetch+decode effect. -/
def CacheStep (w w1 : World) (fx : List Effect) : Prop :=
  NoFetchStep w w1 fx ∨
  (∃ p d, mapFind w.st.audioBuffers p = Option.none ∧
    w1.st.audioBuffers = mapSet w.st.audioBuffers p d ∧
    ∀ q, fx.count (Effect.fetchDecode q) = if p = q then 1 else 0)

theorem nf_trans {w w1 w2 : World} {fx1 fx2 : List Effect}
    (h1 : NoFetchStep w w1 fx1) (h2 : NoFetchStep w1 w2 fx2) :
    NoFetchStep w w2 (fx1 ++ fx2) :=
  ⟨h2.1.trans h1.1,
   fun q => by simp [List.count_append, h1.2 q, h2.2 q]⟩

theorem nf_comp_cs {w w1 w2 : World} {fx1 fx2 : List Effect}
    (h1 : NoFetchStep w w1 fx1) (h2 : CacheStep w1 w2 fx2) :
    CacheStep w w2 (fx1 ++ fx2) := by
  rcases h2 with h2 | ⟨p, d, hn, hb, hc⟩
  · exact Or.inl (nf_trans h1 h2)
  · refine Or.inr ⟨p, d, ?_, ?_, ?_⟩
    · rw [← h1.1]; exact hn
    · rw [hb, h1.1]
    · intro q
      simp [List.count_append, h1.2 q, hc q]

theorem cs_comp_nf {w w1 w2 : World} {fx1 fx2 : List Effect}
    (h1 : CacheStep w w1 fx1) (h2 : NoFetchStep w1 w2 fx2) :
    CacheStep w w2 (fx1 ++ fx2) := by
  rcases h1 with h1 | ⟨p, d, hn, hb, hc⟩
  · exact Or.inl (nf_trans h1 h2)
  · refine Or.inr ⟨p, d, hn, ?_, ?_⟩
    · rw [h2.1, hb]
    · intro q
      simp [List.count_append, h2.2 q, hc q]

theorem cleanup_nofetch (w : World) :
    NoFetchStep w (cleanup w).1 (cleanup w).2 := by
  refine ⟨(cleanup_st_frame w).2.1, fun q => ?_⟩
  unfold cleanup
  rcases w.st.progressInterval with _ | tid <;>
    rcases hs : w.st.currentSource with _ | s <;>
      simp [hs, stopSourceCall] <;>
        rcases s with ⟨sid, sb, en⟩ <;> cases sb <;> cases en <;>
          simp [List.count_eq_zero]

theorem hpc_nofetch (w : World) :
    NoFetchStep w (handlePlaybackComplete w).1 (handlePlaybackComplete w).2 := by
  refine ⟨(cleanup_nofetch w).1, fun q => ?_⟩
  unfold handlePlaybackComplete
  rcases w.st.progressCallback with _ | c <;>
    simp [List.count_append, (cleanup_nofetch w).2 q, List.count_eq_zero]

theorem tick_nofetch (w : World) :
    NoFetchStep w (tickBody w).1 (tickBody w).2 := by
  simp only [tickBody]
  rcases w.st.audioContext with _ | cs <;>
    rcases w.st.currentSource with _ | s <;>
      try exact ⟨rfl, fun q => rfl⟩
  by_cases h100 : 100 ≤ (w.clock - w.st.startTime) / w.st.duration * 100
  · simp only [if_pos h100]
    exact hpc_nofetch w
  · simp only [if_neg h100]
    rcases w.st.progressCallback with _ | c
    · exact ⟨rfl, fun q => rfl⟩
    · exact ⟨rfl, fun q => by simp [List.count_eq_zero]⟩

theorem pss_nofetch (e : Env) (w : World) (d v : ℚ) :
    NoFetchStep w (playStartSession e w d v).1 (playStartSession e w d v).2 := by
  simp only [playStartSession]
  rcases hok : startCall e with _ | u <;>
    rcases w.st.progressCallback with _ | c <;>
      rcases w.st.progressInterval with _ | tid <;>
        refine ⟨rfl, fun q => ?_⟩ <;>
          simp [cleanup, stopSourceCall, List.count_eq_zero, List.count_append]

theorem sched_nofetch (w : World) (s : SchedStep) :
    NoFetchStep w (schedStep w s).1 (schedStep w s).2 := by
  cases s with
  | tick =>
    simp only [schedStep]
    split
    · exact ⟨rfl, fun q => rfl⟩
    · exact tick_nofetch w
  | advance dt => exact ⟨rfl, fun q => rfl⟩
  | deliverEnded =>
    simp only [schedStep]
    rcases w.pendingEnded with _ | ⟨a, rest⟩
    · exact ⟨rfl, fun q => rfl⟩
    · exact hpc_nofetch _
  | naturalEnd =>
    simp only [schedStep]
    rcases w.st.currentSource with _ | s
    · exact ⟨rfl, fun q => rfl⟩
    · by_cases hse : (s.started && !s.ended) = true
      · simp only [if_pos hse]
        exact hpc_nofetch _
      · simp only [if_neg hse]
        exact ⟨rfl, fun q => rfl⟩

theorem preload_cacheStep (e : Env) (w : World) (p : SoundPreset) :
    ∀ r, preload e w p = Except.ok r → CacheStep w r.1 r.2 := by
  intro r hr
  unfold preload at hr
  split_ifs at hr with h1 h2 h3 h4
  · injection hr with h; subst h; exact Or.inl ⟨rfl, fun q => rfl⟩
  · injection hr with h; subst h; exact Or.inl ⟨rfl, fun q => rfl⟩
  · injection hr with h; subst h; exact Or.inl ⟨rfl, fun q => rfl⟩
  · injection hr with h; subst h; exact Or.inl ⟨rfl, fun q => rfl⟩
  · have h3n : mapFind w.st.audioBuffers p = Option.none := by
      rcases hmf : mapFind w.st.audioBuffers p with _ | x
      · rfl
      · simp [hmf] at h3
    cases hl : e.load p with
    | ok dv =>
      simp only [hl] at hr
      injection hr with h
      subst h
      refine Or.inr ⟨p, dv, h3n, rfl, fun q => ?_⟩
      by_cases hpq : p = q <;> simp [hpq, List.count_singleton']
    | error u =>
      simp only [hl] at hr
      injection hr with h
      subst h
      refine Or.inl ⟨rfl, fun q => ?_⟩
      simp [List.count_eq_zero]

theorem pal_nofetch (e : Env) (w : World) (p : SoundPreset) (v : ℚ) :
    NoFetchStep w (playAfterLoad e w p v).1 (playAfterLoad e w p v).2 := by
  unfold playAfterLoad
  rcases mapFind w.st.audioBuffers p with _ | d
  · exact ⟨rfl, fun q => rfl⟩
  · exact pss_nofetch e w d v

theorem after_load_cs {e : Env} {w w2 : World} {p : SoundPreset} {v : ℚ}
    {w3 : World} {fx3 : List Effect}
    (hp : preload e w2 p = Except.ok (w3, fx3))
    (hb : w2.st.audioBuffers = w.st.audioBuffers) {fx0 : List Effect}
    (hfx0 : ∀ q, fx0.count (Effect.fetchDecode q) = 0) :
    CacheStep w (playAfterLoad e w3 p v).1
      (fx0 ++ fx3 ++ (playAfterLoad e w3 p v).2) :=
  cs_comp_nf (nf_comp_cs ⟨hb, hfx0⟩ (preload_cacheStep e w2 p _ hp))
    (pal_nofetch e w3 p v)

theorem par_cacheStep (e : Env) (w : World) (p : SoundPreset) (v : ℚ)
    (cb : Option Nat) :
    ∀ r, playAfterResume e w p v cb = Except.ok r → CacheStep w r.1 r.2 := by
  intro r hr
  simp only [playAfterResume, stop] at hr
  split at hr
  · injection hr with h
    subst h
    exact Or.inl (nf_trans ⟨(cleanup_nofetch w).1, (cleanup_nofetch w).2⟩
      (pss_nofetch e _ _ v))
  · split at hr
    · rename_i w3a fx3a hpre
      injection hr with h
      subst h
      exact after_load_cs hpre (cleanup_nofetch w).1 (cleanup_nofetch w).2
    · cases hr

end CoffeeTimer

namespace CoffeeTimer

theorem play_cacheStep (e : Env) (w : World) (p : SoundPreset) (v : ℚ)
    (cb : Option Nat) :
    ∀ r, play e w p v cb = Except.ok r → CacheStep w r.1 r.2 := by
  intro r hr
  simp only [play] at hr
  split_ifs at hr
  · injection hr with h; subst h; exact Or.inl ⟨rfl, fun q => rfl⟩
  · injection hr with h; subst h; exact Or.inl ⟨rfl, fun q => rfl⟩
  · rcases hctx : w.st.audioContext with _ | cs <;>
      rcases hgn : w.st.gainNode with _ | g <;>
        simp only [hctx, hgn] at hr
    · injection hr with h; subst h; exact Or.inl ⟨rfl, fun q => rfl⟩
    · injection hr with h; subst h; exact Or.inl ⟨rfl, fun q => rfl⟩
    · injection hr with h; subst h; exact Or.inl ⟨rfl, fun q => rfl⟩
    · by_cases hcs : cs = CtxState.suspended
      · simp only [if_pos hcs] at hr
        rcases hre : resumeCall e with _ | u <;> simp only [hre] at hr
        · injection hr with h; subst h; exact Or.inl ⟨rfl, fun q => rfl⟩
        · exact par_cacheStep e (ctxRunning w) p v cb r hr
      · simp only [if_neg hcs] at hr
        exact par_cacheStep e _ p v cb r hr

theorem initManager_buffers (e : Env) (w : World) :
    (∀ r, initManager e w = Except.ok r → NoFetchStep w r.1 r.2) ∧
    (∀ w1, initManager e w = Except.error w1 →
      w1.st.audioBuffers = w.st.audioBuffers) := by
  constructor
  · intro r hr
    unfold initManager at hr
    split_ifs at hr <;>
      rcases hre : resumeCall e with _ | u <;>
        try simp only [hre] at hr
    all_goals
      first
        | (injection hr with h; subst h;
           exact ⟨rfl, fun q => by simp [List.count_eq_zero]⟩)
        | injection hr
  · intro w1 hr
    unfold initManager at hr
    split_ifs at hr <;>
      rcases hre : resumeCall e with _ | u <;>
        try simp only [hre] at hr
    all_goals
      first
        | (injection hr with h; subst h; rfl)
        | injection hr

theorem runOp_cacheStep (e : Env) (w : World) (op : Op) :
    CacheStep w (runOp e w op).1 (runOp e w op).2 := by
  cases op with
  | opInit =>
    simp only [runOp]
    rcases hi : initManager e w with w1 | r
    · exact Or.inl ⟨(initManager_buffers e w).2 w1 hi, fun q => rfl⟩
    · exact (Or.inl ((initManager_buffers e w).1 r hi))
  | opPreload p =>
    simp only [runOp]
    rcases hp : preload e w p with w1 | r
    · obtain ⟨r0, h0⟩ := preload_ok e w p
      rw [h0] at hp
      cases hp
    · exact preload_cacheStep e w p r hp
  | opPlay p v cb =>
    simp only [runOp]
    rcases hp : play e w p v cb with w1 | r
    · obtain ⟨r0, h0⟩ := play_ok e w p v cb
      rw [h0] at hp
      cases hp
    · exact play_cacheStep e w p v cb r hp
  | opStop => exact Or.inl ⟨(cleanup_nofetch w).1, (cleanup_nofetch w).2⟩
  | opSched s => exact Or.inl (sched_nofetch w s)

theorem cacheStep_pot (id : SoundPreset) {w w1 : World} {fx : List Effect}
    (h : CacheStep w w1 fx) :
    (if cachedB w id then 1 else 0) + fx.count (Effect.fetchDecode id) ≤
      (if cachedB w1 id then 1 else 0) := by
  rcases h with ⟨hb, hc⟩ | ⟨p, d, hn, hb, hc⟩
  · rw [hc id]
    simp [cachedB, hb]
  · by_cases hpq : p = id
    · subst hpq
      rw [hc p]
      simp [cachedB, hn, hb, mapFind_mapSet]
    · rw [hc id]
      simp [hpq, cachedB, hb, mapFind_mapSet]

theorem cacheStep_pot_le_one (id : SoundPreset) (w1 : World) :
    (if cachedB w1 id then 1 else 0) ≤ 1 := by
  split <;> simp

theorem runOps_pot (id : SoundPreset) (evs : List (Env × Op)) :
    ∀ w, (if cachedB w id then 1 else 0) +
      (runOps w evs).2.count (Effect.fetchDecode id) ≤ 1 := by
  induction evs with
  | nil =>
    intro w
    simp only [runOps, List.count_nil]
    have := cacheStep_pot_le_one id w
    omega
  | cons ev rest ih =>
    intro w
    rcases ev with ⟨e, op⟩
    have h1 := cacheStep_pot id (runOp_cacheStep e w op)
    have h2 := ih (runOp e w op).1
    simp only [runOps, List.count_append]
    omega

theorem cacheStep_nodup {w w1 : World} {fx : List Effect}
    (h : CacheStep w w1 fx)
    (hn : (w.st.audioBuffers.map Prod.fst).Nodup) :
    (w1.st.audioBuffers.map Prod.fst).Nodup := by
  rcases h with ⟨hb, _⟩ | ⟨p, d, hno, hb, _⟩
  · rwa [hb]
  · rw [hb, mapSet_keys_not_mem _ _ _ hno]
    have hmem := (mapFind_none_not_mem _ _).mp hno
    simp [List.nodup_append, hn, hmem]

theorem runOps_nodup (evs : List (Env × Op)) :
    ∀ w, (w.st.audioBuffers.map Prod.fst).Nodup →
      ((runOps w evs).1.st.audioBuffers.map Prod.fst).Nodup := by
  induction evs with
  | nil => exact fun w hn => hn
  | cons ev rest ih =>
    intro w hn
    rcases ev with ⟨e, op⟩
    simp only [runOps]
    exact ih _ (cacheStep_nodup (runOp_cacheStep e w op) hn)

theorem cached_mem_keys {w : World} {id : SoundPreset}
    (h : cachedB w id = true) : id ∈ w.st.audioBuffers.map Prod.fst := by
  by_contra hmem
  rw [← mapFind_none_not_mem] at hmem
  simp [cachedB, hmem] at h

theorem playStartSession_duration (e : Env) (w : World) (d v : ℚ)
    (hok : e.startOk = true) :
    (playStartSession e w d v).1.st.duration = d := by
  simp only [playStartSession, startCall, hok, if_true]
  rcases w.st.progressCallback with _ | c <;> rfl

/-- C6: the asset for an identifier is successfully fetched and
decoded at most once over any sequence of manager calls: a cached
identifier makes preload an exact no-op; over every operation sequence
the number of successful fetch+decode effects for the identifier plus
its initial cached state is at most one; the cached-identifier list
reported by getState holds a cached identifier exactly once (keys stay
duplicate-free); and a play on a cached identifier emits no
fetch+decode and uses the cached buffer duration for its session. -/
theorem C6_cache_once (id : SoundPreset) :
    (∀ e w, cachedB w id = true → preload e w id = Except.ok (w, [])) ∧
    (∀ w evs, (if cachedB w id then 1 else 0) +
      (runOps w evs).2.count (Effect.fetchDecode id) ≤ 1) ∧
    (∀ w evs, (w.st.audioBuffers.map Prod.fst).Nodup →
      cachedB (runOps w evs).1 id = true →
      (getState (runOps w evs).1).preloadedSounds.count id = 1) ∧
    (∀ e w d v cb g0, supportedHas id = true →
      w.st.audioContext = some CtxState.running →
      w.st.gainNode = some g0 →
      mapFind w.st.audioBuffers id = some d →
      e.startOk = true →
      ∃ w1 fx, play e w id v cb = Except.ok (w1, fx) ∧
        w1.st.duration = d ∧
        fx.count (Effect.fetchDecode id) = 0) := by
  refine ⟨?_, ?_, ?_, ?_⟩
  · intro e w hc
    unfold preload
    split_ifs with h1 h2 h3 h4 <;> first | rfl | exact absurd hc h3
  · intro w evs
    exact runOps_pot id evs w
  · intro w evs hn hc
    have hn1 := runOps_nodup evs w hn
    have hm := cached_mem_keys hc
    simpa [getState] using List.count_eq_one_of_mem hn1 hm
  · intro e w d v cb g0 hsup hctx hg hbuf hstart
    have hid : id ≠ SoundPreset.none := by
      intro h
      subst h
      exact absurd hsup (by decide)
    have hb2 : mapFind (cleanup w).1.st.audioBuffers id = some d := by
      rw [(cleanup_st_frame w).2.1]
      exact hbuf
    simp only [play, playAfterResume, stop, hid, hsup, hctx, hg, hb2,
      Bool.true_eq_false, if_false, reduceCtorEq, ite_false, if_neg,
      not_false_eq_true]
    refine ⟨_, _, rfl, playStartSession_duration e _ d v hstart, ?_⟩
    simp [List.count_append, (cleanup_nofetch w).2 id,
      (pss_nofetch e _ d v).2 id]

/-- C6 witness: the cached doublePing preset; a preload no-op, an
exactly-once cachedIds entry after a preload-play sequence, and a play
reusing the cached 2-second buffer with no fetch. -/
theorem C6_cache_once_witness :
    preload exEnv exIdleW SoundPreset.doublePing = Except.ok (exIdleW, []) ∧
    (getState (runOps exIdleW
        [(exEnv, Op.opPreload SoundPreset.doublePing),
         (exEnv, Op.opPlay SoundPreset.doublePing 70 (some 4))]).1).preloadedSounds.count
      SoundPreset.doublePing = 1 ∧
    (∃ w1 fx, play exEnv exIdleW SoundPreset.doublePing 70 (some 4) =
        Except.ok (w1, fx) ∧ w1.st.duration = 2 ∧
        fx.count (Effect.fetchDecode SoundPreset.doublePing) = 0) :=
  ⟨(C6_cache_once SoundPreset.doublePing).1 exEnv exIdleW rfl,
   (C6_cache_once SoundPreset.doublePing).2.2.1 exIdleW
     [(exEnv, Op.opPreload SoundPreset.doublePing),
      (exEnv, Op.opPlay SoundPreset.doublePing 70 (some 4))]
     (by decide) (by decide),
   (C6_cache_once SoundPreset.doublePing).2.2.2 exEnv exIdleW 2 70 (some 4) 1
     rfl rfl rfl rfl rfl⟩

end CoffeeTimer

namespace CoffeeTimer

theorem stop_inactive (w : World) (h : Inactive w) : stop w = (w, []) := by
  obtain ⟨i1, i2, i3, i4, i5⟩ := h
  rcases w with ⟨⟨a, b, c, g, pc, pi, s0, d0⟩, ck, lt, pe, ns, nt⟩
  simp only at i1 i2 i3 i4 i5
  subst i1 i2 i3 i4 i5
  simp [stop, cleanup]

/-- C1 (corrected): in the interleaving where a second play call runs
while the first play call awaits its buffer load, the first call's
progress callback is indeed never invoked after the second call's
session starts (the second call's stop clears it), BUT the completed
load belonging to the superseded first call DOES start a session: the
first call's continuation re-reads the cache, creates a new source
(w.nextSrc + 1) that replaces the second call's source (w.nextSrc) in
the manager, and the second call's source is never stopped — it keeps
playing, orphaned.  So after both calls settle the manager tracks the
first call's session, not the second call's, and two started sources
exist; the claimed single-session guarantee does not hold (the code
has no generation token). -/
theorem C1_rapid_play_amended (env1 env2 : Env) (w : World)
    (p1 p2 : SoundPreset) (v1 v2 : ℚ) (c1 c2 : Nat) (d1 d2 : ℚ)
    (hcc : c1 ≠ c2)
    (hctx : w.st.audioContext = some CtxState.running)
    (hg : ∃ g0, w.st.gainNode = some g0)
    (hsrc : w.st.currentSource = Option.none)
    (hcb : w.st.progressCallback = Option.none)
    (hint : w.st.progressInterval = Option.none)
    (hlt : w.liveTimers = [])
    (hs0 : w.st.startTime = 0) (hd0 : w.st.duration = 0)
    (hp2 : supportedHas p2 = true)
    (hb1 : mapFind w.st.audioBuffers p1 = Option.none)
    (hb2 : mapFind w.st.audioBuffers p2 = some d2)
    (hl1 : env1.load p1 = Except.ok d1)
    (hst1 : env1.startOk = true) (hst2 : env2.startOk = true) :
    ∃ wC fx, rapidSecondPlay env1 env2 w p1 p2 v1 v2 (some c1) (some c2) =
        Except.ok (wC, fx) ∧
      wC.st.currentSource = some ⟨w.nextSrc + 1, true, false⟩ ∧
      Effect.sourceStart w.nextSrc ∈ fx ∧
      Effect.sourceStop w.nextSrc ∉ fx ∧
      Effect.sourceStart (w.nextSrc + 1) ∈ fx ∧
      (∀ pc el du, Effect.cbCall c1 pc el du ∉ fx) := by
  have hp2n : p2 ≠ SoundPreset.none := by
    intro h
    subst h
    exact absurd hp2 (by decide)
  obtain ⟨g0, hg0⟩ := hg
  rcases w with ⟨⟨a, b, c, g, pc, pi, s0, d0⟩, ck, lt, pe, ns, nt⟩
  simp only at hctx hg0 hsrc hcb hint hlt hs0 hd0 hb1 hb2
  subst hctx hg0 hsrc hcb hint hlt hs0 hd0
  simp only [rapidSecondPlay, stop, cleanup, play, playAfterResume,
    playAfterLoad, playStartSession, startCall, hst1, hst2, hp2, hp2n,
    hb2, hl1, mapFind_mapSet, Bool.true_eq_false, if_false, reduceCtorEq,
    ite_false, if_neg, not_false_eq_true, if_true, ite_true, if_pos]
  refine ⟨_, _, rfl, rfl, ?_, ?_, ?_, ?_⟩
  · simp
  · simp
  · simp
  · intro pcx el du
    simp [hcc]

/-- C1 counterexample: idle manager with doublePing cached and
brightDing uncached; play(brightDing) suspends at its load,
play(doublePing) runs to completion starting source 0, then
brightDing's load resolves and the first call's continuation starts
source 1, which replaces source 0 in the manager while source 0 is
never stopped — the claim that exactly one session remains and that it
is the second call's, and that the stale load never starts a session,
is false at this input. -/
theorem C1_counterexample :
    ∃ wC fx, rapidSecondPlay exEnv exEnv exIdleW SoundPreset.brightDing
        SoundPreset.doublePing 70 80 (some 1) (some 2) =
        Except.ok (wC, fx) ∧
      wC.st.currentSource = some ⟨1, true, false⟩ ∧
      Effect.sourceStart 0 ∈ fx ∧
      Effect.sourceStop 0 ∉ fx ∧
      Effect.sourceStart 1 ∈ fx :=
  ⟨_, _, rfl, by decide, by decide, by decide, by decide⟩

/-- C1 witness for the amended claim at the counterexample's concrete
inputs. -/
theorem C1_rapid_play_amended_witness :
    ∃ wC fx, rapidSecondPlay exEnv exEnv exIdleW SoundPreset.brightDing
        SoundPreset.doublePing 70 80 (some 1) (some 2) =
        Except.ok (wC, fx) ∧
      wC.st.currentSource = some ⟨1, true, false⟩ ∧
      Effect.sourceStart 0 ∈ fx ∧
      Effect.sourceStop 0 ∉ fx ∧
      Effect.sourceStart 1 ∈ fx ∧
      (∀ pc el du, Effect.cbCall 1 pc el du ∉ fx) := by
  have h := C1_rapid_play_amended exEnv exEnv exIdleW SoundPreset.brightDing
    SoundPreset.doublePing 70 80 1 2 3 2 (by decide) rfl ⟨1, rfl⟩ rfl rfl rfl
    rfl rfl rfl (by decide) rfl rfl rfl rfl rfl
  exact h

end CoffeeTimer

namespace CoffeeTimer

/-- The progress value the interval closure would compute right now. -/
def curPct (w : World) : ℚ :=
  (w.clock - w.st.startTime) / w.st.duration * 100

/-- A live single session as play leaves it: running context, started
source, callback and interval registered, exactly that interval live,
no pending ended event, session times set, clock at or past the
start. -/
def AliveW (w : World) (c sid tid : Nat) (c0 d : ℚ) : Prop :=
  w.st.audioContext = some CtxState.running ∧
  w.st.currentSource = some ⟨sid, true, false⟩ ∧
  w.st.progressCallback = some c ∧
  w.st.progressInterval = some tid ∧
  w.liveTimers = [tid] ∧
  w.pendingEnded = [] ∧
  w.st.startTime = c0 ∧
  w.st.duration = d ∧
  c0 ≤ w.clock

theorem hpc_complete {w : World} {c tid : Nat}
    (h3 : w.st.progressCallback = some c)
    (h4 : w.st.progressInterval = some tid)
    (h5 : w.liveTimers = [tid]) :
    cbOf (handlePlaybackComplete w).2 = [(c, 100, 0, 0)] ∧
    DeadW (handlePlaybackComplete w).1 := by
  constructor
  · unfold handlePlaybackComplete
    rw [h3]
    simp [cbOf, cbOf_append, cleanup_no_cb w]
  · exact ⟨rfl, rfl, rfl, by simp [handlePlaybackComplete, cleanup, h4, h5]⟩

theorem aliveRun (c sid tid : Nat) (c0 d : ℚ) (hd : 0 < d) :
    ∀ (ss : List SchedStep) (w : World) (lo : ℚ) (b : Bool),
      AliveW w c sid tid c0 d →
      (if b = true then lo < curPct w else lo ≤ curPct w) →
      wsp b ss = true →
      goodTail c lo (cbOf (schedRun w ss).2) = true ∧
      countCompl c (cbOf (schedRun w ss).2) ≤ 1 ∧
      (SchedStep.naturalEnd ∈ ss →
        countCompl c (cbOf (schedRun w ss).2) = 1) := by
  intro ss
  induction ss with
  | nil =>
    intro w lo b hA hlo hw
    refine ⟨rfl, by simp [countCompl, schedRun, cbOf], by simp⟩
  | cons s ss ih =>
    intro w lo b hA hlo hw
    obtain ⟨h1, h2, h3, h4, h5, h6, h7, h8, h9⟩ := hA
    cases s with
    | advance dt =>
      simp only [wsp, Bool.and_eq_true, decide_eq_true_eq] at hw
      obtain ⟨hdt, hw1⟩ := hw
      have hA1 : AliveW { w with clock := w.clock + dt } c sid tid c0 d :=
        ⟨h1, h2, h3, h4, h5, h6, h7, h8, by show c0 ≤ w.clock + dt; linarith⟩
      have hcur : curPct w < curPct { w with clock := w.clock + dt } := by
        show (w.clock - w.st.startTime) / w.st.duration * 100 <
          (w.clock + dt - w.st.startTime) / w.st.duration * 100
        rw [h7, h8, mul_lt_mul_right (by norm_num : (0 : ℚ) < 100),
          div_lt_div_iff_of_pos_right hd]
        linarith
      have hlo1 : lo < curPct { w with clock := w.clock + dt } := by
        cases b
        · simp at hlo
          exact lt_of_le_of_lt hlo hcur
        · simp at hlo
          exact lt_trans hlo hcur
      have := ih { w with clock := w.clock + dt } lo true hA1 (by simpa) hw1
      simpa [schedRun, schedStep] using this
    | deliverEnded =>
      simp only [wsp] at hw
      have := ih w lo b ⟨h1, h2, h3, h4, h5, h6, h7, h8, h9⟩ hlo hw
      have hred : schedStep w SchedStep.deliverEnded = (w, []) := by
        simp [schedStep, h6]
      simp only [schedRun, hred, List.nil_append]
      simpa [List.mem_cons] using this
    | naturalEnd =>
      simp only [wsp] at hw
      have hstep : schedStep w SchedStep.naturalEnd =
          handlePlaybackComplete
            { w with st := { w.st with currentSource := some ⟨sid, true, true⟩ } } := by
        simp [schedStep, h2]
      have hcd := hpc_complete (w := { w with st := { w.st with currentSource := some ⟨sid, true, true⟩ } }) h3 h4 h5
      have hdead := deadRun ss _ hcd.2
      simp only [schedRun, hstep, cbOf_append, hcd.1, hdead.1]
      refine ⟨by simp [goodTail], by simp [countCompl], fun _ => by simp [countCompl]⟩
    | tick =>
      simp only [wsp, Bool.and_eq_true] at hw
      obtain ⟨hb, hw1⟩ := hw
      subst hb
      simp only [if_pos] at hlo
      have hne : w.liveTimers.isEmpty = false := by simp [h5]
      by_cases h100 : 100 ≤ curPct w
      · have hstep : schedStep w SchedStep.tick = handlePlaybackComplete w := by
          simp only [schedStep, hne, Bool.false_eq_true, if_false, tickBody, h1, h2]
          rw [if_pos (by simpa [curPct, h7, h8] using h100)]
        have hcd := hpc_complete h3 h4 h5
        have hdead := deadRun ss _ hcd.2
        simp only [schedRun, hstep, cbOf_append, hcd.1, hdead.1]
        refine ⟨by simp [goodTail], by simp [countCompl], fun _ => by simp [countCompl]⟩
      · have hlt100 : curPct w < 100 := lt_of_not_ge h100
        have hne100 : ¬(curPct w = 100) := ne_of_lt hlt100
        have hstep : schedStep w SchedStep.tick =
            (w, [Effect.cbCall c (curPct w) (w.clock - c0) d]) := by
          simp only [schedStep, hne, Bool.false_eq_true, if_false, tickBody, h1, h2]
          rw [if_neg (by simpa [curPct, h7, h8] using h100), h3]
          rw [min_eq_left
            (show (w.clock - w.st.startTime) / w.st.duration * 100 ≤ 100 from
              le_of_lt hlt100)]
          simp [curPct, h7, h8]
        have hrec := ih w (curPct w) false ⟨h1, h2, h3, h4, h5, h6, h7, h8, h9⟩
          (by simp) hw1
        simp only [schedRun, hstep, cbOf_append, cbOf]
        refine ⟨?_, ?_, ?_⟩
        · simp only [goodTail, List.singleton_append]
          rw [if_neg hne100]
          simp [hlo, hlt100, hrec.1]
        · simp only [List.singleton_append, countCompl, List.countP_cons]
          simpa [countCompl, Prod.mk.injEq, hne100] using hrec.2.1
        · intro hmem
          simp only [List.mem_cons] at hmem
          rcases hmem with hmem | hmem
          · cases hmem
          · have hc1 := hrec.2.2 hmem
            simp only [List.singleton_append, countCompl, List.countP_cons]
            simpa [countCompl, Prod.mk.injEq, hne100] using hc1

end CoffeeTimer

namespace CoffeeTimer

/-- C2: for every play that starts a session with a callback on a
buffer of duration d (from an idle ready manager), under well-spaced
scheduling (the audio clock strictly advances before each interval
firing), the callback trace is exactly: first (0, 0, d), then zero or
more reports with strictly increasing percents strictly between 0 and
100 (the timer path reports min(progress, 100) only when progress is
below 100, so it never reports 100 or more), then at most one final
(100, 0, 0) — exactly one when the source's natural end occurs — and
nothing after that final report. -/
theorem C2_progress_callback_contract (e : Env) (w : World)
    (p : SoundPreset) (v d : ℚ) (cbId : Nat)
    (hp : supportedHas p = true)
    (hctx : w.st.audioContext = some CtxState.running)
    (hg : ∃ g0, w.st.gainNode = some g0)
    (hbuf : mapFind w.st.audioBuffers p = some d)
    (hd : 0 < d)
    (hsrc : w.st.currentSource = Option.none)
    (hint : w.st.progressInterval = Option.none)
    (hlt : w.liveTimers = [])
    (hpe : w.pendingEnded = [])
    (hstart : e.startOk = true)
    (ss : List SchedStep) (hss : wsp false ss = true) :
    ∃ wf fx,
      playThenSched e w p v (some cbId) ss = some (wf, fx) ∧
      (∃ tl, cbOf fx = (cbId, 0, 0, d) :: tl ∧ goodTail cbId 0 tl = true) ∧
      countCompl cbId (cbOf fx) ≤ 1 ∧
      (SchedStep.naturalEnd ∈ ss → countCompl cbId (cbOf fx) = 1) := by
  have hpn : p ≠ SoundPreset.none := by
    intro h
    subst h
    exact absurd hp (by decide)
  obtain ⟨g0, hg0⟩ := hg
  rcases w with ⟨⟨a, b, c, g, pc, pi, s0, d0⟩, ck, lt, pe, ns, nt⟩
  simp only at hctx hg0 hbuf hsrc hint hlt hpe
  subst hctx hg0 hsrc hint hlt hpe
  have hA := aliveRun cbId ns nt ck d hd ss
    ⟨⟨some CtxState.running, b, some ⟨ns, true, false⟩, some (v / 100),
      some cbId, some nt, ck, d⟩, ck, [nt], [], ns + 1, nt + 1⟩ 0 false
    ⟨rfl, rfl, rfl, rfl, rfl, rfl, rfl, rfl, le_refl ck⟩
    (by simp [curPct]) hss
  simp only [playThenSched, play, playAfterResume, stop, cleanup,
    playStartSession, startCall, hstart, hp, hpn, hbuf, Bool.true_eq_false,
    if_false, reduceCtorEq, ite_false, if_neg, not_false_eq_true, if_true,
    ite_true, if_pos, List.nil_append, List.append_nil]
  refine ⟨_, _, rfl,
    ⟨cbOf (schedRun
      ⟨⟨some CtxState.running, b, some ⟨ns, true, false⟩, some (v / 100),
        some cbId, some nt, ck, d⟩, ck, [nt], [], ns + 1, nt + 1⟩ ss).2,
     ?_, hA.1⟩, ?_, ?_⟩
  · simp [cbOf_append, cbOf]
  · simpa [countCompl, cbOf_append, cbOf, Prod.mk.injEq] using hA.2.1
  · intro hmem
    simpa [countCompl, cbOf_append, cbOf, Prod.mk.injEq] using hA.2.2 hmem

end CoffeeTimer

namespace CoffeeTimer

/-- C2 witness: play the cached 2-second doublePing at volume 70 with
callback 4, tick at clock 1 (50 percent), then complete. -/
theorem C2_progress_callback_contract_witness :
    ∃ wf fx,
      playThenSched exEnv exIdleW SoundPreset.doublePing 70 (some 4)
        [SchedStep.advance 1, SchedStep.tick, SchedStep.advance 2,
         SchedStep.tick, SchedStep.naturalEnd, SchedStep.deliverEnded] =
        some (wf, fx) ∧
      (∃ tl, cbOf fx = (4, 0, 0, 2) :: tl ∧ goodTail 4 0 tl = true) ∧
      countCompl 4 (cbOf fx) ≤ 1 ∧
      (SchedStep.naturalEnd ∈
          [SchedStep.advance 1, SchedStep.tick, SchedStep.advance 2,
           SchedStep.tick, SchedStep.naturalEnd, SchedStep.deliverEnded] →
        countCompl 4 (cbOf fx) = 1) :=
  C2_progress_callback_contract exEnv exIdleW SoundPreset.doublePing 70 2 4
    rfl rfl ⟨1, rfl⟩ rfl (by decide) rfl rfl rfl rfl rfl
    [SchedStep.advance 1, SchedStep.tick, SchedStep.advance 2,
     SchedStep.tick, SchedStep.naturalEnd, SchedStep.deliverEnded]
    (by decide)

end CoffeeTimer
